import Mathlib

/-!
Shallow embedding of the agent-loop program in `src/main.py` (Firecrawl
in-memory agent).  Python strings are modelled as Lean `String` (sequences of
code points); the in-memory file dictionary as an association list with
update-in-place semantics matching a Python `dict`; the two external
collaborators (OpenAI chat completion, Firecrawl fetch) as explicit
parameters: a list of provider responses consumed in order, and a function
from URL to fetch outcome.
-/

namespace FirecrawlAgent

/-- `files_in_memory`: the in-memory file storage (`main.py` line 42), a
Python `dict` from key to content, modelled as an association list with
unique keys maintained by `setStore`. -/
abbrev Store := List (String × String)

/-- `d[k] = v` on a Python dict: replace the value in place if the key is
present, otherwise append the new binding. -/
def setStore : Store → String → String → Store
  | [], k, v => [(k, v)]
  | (k', v') :: rest, k, v =>
      if k' = k then (k, v) :: rest else (k', v') :: setStore rest k v

/-- `d.get(k)` on a Python dict: the value of the first (unique) matching
key, if any. -/
def getStore : Store → String → Option String
  | [], _ => none
  | (k', v') :: rest, k => if k' = k then some v' else getStore rest k

/-- Outcome of `firecrawl_app.scrape_url(url=..., params=...)` as observed
by `scrape_url` (`main.py` lines 202-216): a response dict that contains
the `"markdown"` key, a response dict that lacks it (carrying an optional
`"error"` field), or an exception raised by the call. -/
inductive FetchResponse where
  | withMarkdown (content : String)
  | withoutMarkdown (error : String)
  | raises (msg : String)
deriving DecidableEq

/-- The JSON object `json.loads(tool_call.function.arguments)` produces,
classified by its exact key set: each constructor is the key set of one of
the four pydantic argument models (`main.py` lines 47-62); `otherShape`
is any parsed object whose key set matches none of them (calling a tool
implementation with it raises `TypeError`, caught locally). -/
inductive ToolArgs where
  | scrapeArgs (reasoning url output_file_path : String)
  | readArgs (reasoning file_path : String)
  | writeArgs (reasoning file_path content : String)
  | completeArgs (reasoning : String)
  | otherShape
deriving DecidableEq

/-- One entry of `response_message.tool_calls`: the correlation id, the
function name, and the parsed arguments; `args = none` models an
`arguments` string that is not valid JSON, so that `json.loads`
(`main.py` line 288) raises outside the per-tool `try`. -/
structure ToolCall where
  id : String
  name : String
  args : Option ToolArgs
deriving DecidableEq

/-- One message of the conversation transcript, as appended by `run_agent`:
the seeded user message (line 249), the plain assistant message (line 267),
the assistant message carrying the tool invocations (lines 271-285), and a
tool result message (lines 308-313). -/
inductive Message where
  | user (content : String)
  | assistantText (content : String)
  | assistantCalls (content : Option String) (tool_calls : List ToolCall)
  | tool (tool_call_id : String) (name : String) (content : String)
deriving DecidableEq

/-- One response of the completion provider
(`completion.choices[0].message`): optional text content and the list of
tool invocations (empty list models a falsy `tool_calls`). -/
structure ProviderResponse where
  content : Option String
  tool_calls : List ToolCall
deriving DecidableEq

/-- Why the `while` loop of `run_agent` stopped: `done` via the
`break_loop` flag set by `complete_task`; `budget` because
`iterations < compute_limit` became false; `providerError` via the outer
`except` handler's `break` (provider call failed, no tool calls in the
response, or unparseable tool arguments). -/
inductive ExitCause where
  | done
  | budget
  | providerError
deriving DecidableEq

/-- The loop's final state: transcript, store, exit cause, and the number
of completed provider round-trips. -/
structure CoreResult where
  messages : List Message
  files : Store
  cause : ExitCause
  providerCalls : Nat
deriving DecidableEq

/-- The dict `run_agent` returns to its caller (`main.py` lines 321-324):
only the transcript and the store; the exit cause is not part of it. -/
structure AgentReturn where
  messages : List Message
  files_in_memory : Store
deriving DecidableEq

/-- Python `content[:n]`: the first `n` code points of a string. -/
def pyTake (s : String) (n : Nat) : String := String.mk (s.data.take n)

/-- The agent prompt template (`main.py` lines 74-181). -/
def AGENT_PROMPT : String := "<purpose>\n    You are a world-class web scraping and content filtering expert.\n    Your goal is to scrape web content and filter it according to the user's needs.\n</purpose>\n\n<instructions>\n    <instruction>Run scrape_url, then read_local_file, then update_local_file as many times as needed to satisfy the user's prompt, then complete_task when the task is complete.</instruction>\n    <instruction>When processing content, extract exactly what the user asked for - no more, no less.</instruction>\n    <instruction>When saving processed content, use proper markdown formatting.</instruction>\n    <instruction>Use the tools provided in the 'tools' section.</instruction>\n</instructions>\n\n<tools>\n    ...\n</tools>\n\n<user-prompt>\n    \x7b\x7buser_prompt\x7d\x7d\n</user-prompt>\n\n<url>\n    \x7b\x7burl\x7d\x7d\n</url>\n\n<output-file-path>\n    \x7b\x7boutput_file_path\x7d\x7d\n</output-file-path>\n"

/-- The placeholder substitution of `run_agent` (`main.py` lines 244-248). -/
def formatPrompt (url prompt output_file_path : String) : String :=
  ((AGENT_PROMPT.replace "\x7b\x7buser_prompt\x7d\x7d" prompt).replace
      "\x7b\x7burl\x7d\x7d" url).replace
    "\x7b\x7boutput_file_path\x7d\x7d" output_file_path

/-- `scrape_url` (`main.py` lines 199-216), with the Firecrawl call
abstracted as `fetch`.  Success stores the content truncated to its first
2000 code points under the output key and returns the truncated content;
a response without the `"markdown"` key, or an exception, yields the empty
string and an unchanged store.  Returns (updated store, result string). -/
def scrape_url (fetch : String → FetchResponse) (files : Store)
    (reasoning url output_file_path : String) : Store × String :=
  match fetch url with
  | .withMarkdown content =>
      let limited_content := pyTake content 2000
      (setStore files output_file_path limited_content, limited_content)
  | .withoutMarkdown _ => (files, "")
  | .raises _ => (files, "")

/-- `read_local_file` (`main.py` lines 218-222): `files_in_memory.get(file_path, "")`.
The store is returned unchanged. -/
def read_local_file (files : Store) (reasoning file_path : String) :
    Store × String :=
  (files, (getStore files file_path).getD "")

/-- `update_local_file` (`main.py` lines 224-228). -/
def update_local_file (files : Store) (reasoning file_path content : String) :
    Store × String :=
  (setStore files file_path content, "File updated successfully")

/-- `complete_task` (`main.py` lines 230-234). -/
def complete_task (reasoning : String) : String := "Task completed successfully"

/-- Whether a function name is one of the four recognized tool names
(`main.py` lines 293-300). -/
def knownToolName (n : String) : Bool :=
  n == "ScrapeUrlArgs" || n == "ReadLocalFileArgs" ||
    n == "UpdateLocalFileArgs" || n == "CompleteTaskArgs"

/-- Whether a parsed arguments object has exactly the key set of
`CompleteTaskArgs`. -/
def completeFlag : ToolArgs → Bool
  | .completeArgs _ => true
  | _ => false

/-- Whether a tool call with name `n` and parsed arguments `a` executes
`complete_task` and therefore sets `break_loop` (`main.py` lines 299-301):
`complete_task(**function_args)` must actually succeed, so the argument
shape has to match as well. -/
def isCompleteSel (n : String) (a : ToolArgs) : Bool :=
  (n == "CompleteTaskArgs") && completeFlag a

/-- The dispatch on one tool call with parsed arguments (`main.py` lines
291-307): (updated store, recorded result string, whether `break_loop`
was set).  A recognized name with a mismatched argument shape raises
`TypeError` inside the inner `try`; the interpreter-formatted message
text is modelled by the fixed tag `"TypeError"`.  An unrecognized name
raises `ValueError(f"Unknown function: {function_name}")`, likewise
caught and recorded as
`f"Error executing {function_name}: {str(e)}"` (line 305). -/
def dispatchTool (fetch : String → FetchResponse) (files : Store) :
    String → ToolArgs → Store × String × Bool
  | "ScrapeUrlArgs", .scrapeArgs r u o =>
      ((scrape_url fetch files r u o).1, (scrape_url fetch files r u o).2,
        false)
  | "ReadLocalFileArgs", .readArgs r p =>
      ((read_local_file files r p).1, (read_local_file files r p).2, false)
  | "UpdateLocalFileArgs", .writeArgs r p c =>
      ((update_local_file files r p c).1, (update_local_file files r p c).2,
        false)
  | "CompleteTaskArgs", .completeArgs r => (files, complete_task r, true)
  | n, _ =>
      (files,
        if knownToolName n then "Error executing " ++ n ++ ": TypeError"
        else "Error executing " ++ n ++ ": Unknown function: " ++ n,
        false)

/-- Processing of one tool call (`main.py` lines 286-307): `none` models
the `json.loads` exception escaping to the outer handler (line 288 sits
outside the inner `try`); otherwise the arguments are dispatched. -/
def execToolCall (fetch : String → FetchResponse) (files : Store)
    (tc : ToolCall) : Option (Store × String × Bool) :=
  tc.args.map (dispatchTool fetch files tc.name)

/-- Result of the `for tool_call in response_message.tool_calls` loop:
final store, the tool result messages appended (in order), the
`break_loop` flag, and whether an exception escaped the loop (unparseable
arguments), aborting the batch. -/
structure BatchOut where
  files : Store
  results : List Message
  break_loop : Bool
  aborted : Bool
deriving DecidableEq

/-- The `for` loop over the batch of tool invocations (`main.py` lines
286-313): each call is dispatched, its result recorded; an unparseable
`arguments` string aborts the batch (later calls get no result). -/
def processCalls (fetch : String → FetchResponse) (files : Store)
    (break_loop : Bool) : List ToolCall → BatchOut
  | [] => ⟨files, [], break_loop, false⟩
  | tc :: rest =>
      match execToolCall fetch files tc with
      | none => ⟨files, [], break_loop, true⟩
      | some (f', res, isComplete) =>
          let out := processCalls fetch f' (break_loop || isComplete) rest
          ⟨out.files, Message.tool tc.id tc.name res :: out.results,
            out.break_loop, out.aborted⟩

/-- The `while iterations < compute_limit and not break_loop` loop of
`run_agent` (`main.py` lines 253-318), with fuel = remaining permitted
iterations and `script` = the provider responses still to come.  An
exhausted script models the completion call itself raising (caught by the
outer handler).  An empty `tool_calls` raises
`ValueError("No tool calls found - should not happen")`, also caught:
both break the loop with `providerError`. -/
def loopAgent (fetch : String → FetchResponse) :
    Nat → List ProviderResponse → List Message → Store → Nat → CoreResult
  | 0, _, msgs, files, calls => ⟨msgs, files, .budget, calls⟩
  | _ + 1, [], msgs, files, calls => ⟨msgs, files, .providerError, calls⟩
  | n + 1, resp :: rest, msgs, files, calls =>
      let msgs1 := msgs ++ [Message.assistantText (resp.content.getD "")]
      match resp.tool_calls with
      | [] => ⟨msgs1, files, .providerError, calls + 1⟩
      | tcs =>
          let msgs2 := msgs1 ++ [Message.assistantCalls resp.content tcs]
          let out := processCalls fetch files false tcs
          let msgs3 := msgs2 ++ out.results
          if out.aborted then ⟨msgs3, out.files, .providerError, calls + 1⟩
          else if out.break_loop then ⟨msgs3, out.files, .done, calls + 1⟩
          else loopAgent fetch n rest msgs3 out.files (calls + 1)

/-- `run_agent` (`main.py` lines 239-324) up to, but not including, the
final `return`: store cleared, prompt formatted, one user message seeded,
then the loop.  `compute_limit` is a Python `int`, so an `Int` here; the
loop runs at most `max compute_limit 0` iterations. -/
def run_agent_core (fetch : String → FetchResponse)
    (script : List ProviderResponse)
    (url prompt output_file_path : String) (compute_limit : Int) : CoreResult :=
  loopAgent fetch compute_limit.toNat script
    [Message.user (formatPrompt url prompt output_file_path)] [] 0

/-- The value `run_agent` returns to its caller (`main.py` lines 320-324):
always the plain `{"messages": ..., "files_in_memory": ...}` dict,
whatever the exit cause. -/
def run_agent (fetch : String → FetchResponse)
    (script : List ProviderResponse)
    (url prompt output_file_path : String) (compute_limit : Int) :
    AgentReturn :=
  let r := run_agent_core fetch script url prompt output_file_path compute_limit
  ⟨r.messages, r.files⟩

/-- Transcript pairing check: every tool-invocation batch message is
immediately followed by one tool-result message per invocation, carrying
the invocations' correlation ids in their order; `pending` holds the
invocations of the current batch still awaiting their results.  The
transcript may end while results are still pending: in that case the run
stopped and no further provider call was ever issued. -/
def toolCallsPaired (pending : List ToolCall) : List Message → Bool
  | [] => true
  | m :: rest =>
      match pending, m with
      | [], .user _ => toolCallsPaired [] rest
      | [], .assistantText _ => toolCallsPaired [] rest
      | [], .assistantCalls _ tcs => toolCallsPaired tcs rest
      | [], .tool _ _ _ => false
      | tc :: tcs, .tool i _ _ => i == tc.id && toolCallsPaired tcs rest
      | _ :: _, _ => false

/-- Strict variant of `toolCallsPaired`: the transcript must not end while
results are still pending.  This is the shape of the transcript at every
point where a provider call is about to be issued. -/
def toolCallsPairedStrict (pending : List ToolCall) : List Message → Bool
  | [] => pending.isEmpty
  | m :: rest =>
      match pending, m with
      | [], .user _ => toolCallsPairedStrict [] rest
      | [], .assistantText _ => toolCallsPairedStrict [] rest
      | [], .assistantCalls _ tcs => toolCallsPairedStrict tcs rest
      | [], .tool _ _ _ => false
      | tc :: tcs, .tool i _ _ => i == tc.id && toolCallsPairedStrict tcs rest
      | _ :: _, _ => false

theorem toolCallsPaired_of_strict (msgs : List Message) :
    ∀ pending, toolCallsPairedStrict pending msgs = true →
      toolCallsPaired pending msgs = true := by
  induction msgs with
  | nil => intro pending _; rfl
  | cons m rest ih =>
      intro pending h
      cases pending with
      | nil =>
          cases m <;> simp only [toolCallsPaired, toolCallsPairedStrict] at h ⊢ <;>
            first
            | exact ih _ h
            | exact h
      | cons tc tcs =>
          cases m <;> simp only [toolCallsPaired, toolCallsPairedStrict,
            Bool.and_eq_true] at h ⊢ <;>
            first
            | exact h
            | exact ⟨h.1, ih _ h.2⟩

theorem toolCallsPairedStrict_append (a : List Message) :
    ∀ (pending : List ToolCall) (b : List Message),
      toolCallsPairedStrict pending a = true →
      toolCallsPairedStrict [] b = true →
      toolCallsPairedStrict pending (a ++ b) = true := by
  induction a with
  | nil =>
      intro pending b ha hb
      cases pending with
      | nil => simpa using hb
      | cons tc tcs => simp [toolCallsPairedStrict, List.isEmpty] at ha
  | cons m rest ih =>
      intro pending b ha hb
      cases pending with
      | nil =>
          cases m <;> simp only [toolCallsPairedStrict, List.cons_append] at ha ⊢ <;>
            first
            | exact ha
            | exact ih _ _ ha hb
      | cons tc tcs =>
          cases m <;> simp only [toolCallsPairedStrict, List.cons_append,
            Bool.and_eq_true] at ha ⊢ <;>
            first
            | exact ha
            | exact ⟨ha.1, ih _ _ ha.2 hb⟩

theorem toolCallsPaired_append (a : List Message) :
    ∀ (pending : List ToolCall) (b : List Message),
      toolCallsPairedStrict pending a = true →
      toolCallsPaired [] b = true →
      toolCallsPaired pending (a ++ b) = true := by
  induction a with
  | nil =>
      intro pending b ha hb
      cases pending with
      | nil => simpa using hb
      | cons tc tcs => simp [toolCallsPairedStrict, List.isEmpty] at ha
  | cons m rest ih =>
      intro pending b ha hb
      cases pending with
      | nil =>
          cases m <;> simp only [toolCallsPaired, toolCallsPairedStrict,
            List.cons_append] at ha ⊢ <;>
            first
            | exact ha
            | exact ih _ _ ha hb
      | cons tc tcs =>
          cases m <;> simp only [toolCallsPaired, toolCallsPairedStrict,
            List.cons_append, Bool.and_eq_true] at ha ⊢ <;>
            first
            | exact ha
            | exact ⟨ha.1, ih _ _ ha.2 hb⟩

/-- `d[k] = v` then `d.get(k)` yields `v`. -/
theorem getStore_setStore_self (files : Store) (k v : String) :
    getStore (setStore files k v) k = some v := by
  induction files with
  | nil => simp [setStore, getStore]
  | cons p rest ih =>
      obtain ⟨k', v'⟩ := p
      by_cases h : k' = k <;> simp [setStore, getStore, h, ih]

theorem dispatchTool_flag (fetch : String → FetchResponse) (files : Store)
    (n : String) (a : ToolArgs) :
    (dispatchTool fetch files n a).2.2 = isCompleteSel n a := by
  unfold dispatchTool
  split
  · simp [isCompleteSel, completeFlag]
  · simp [isCompleteSel, completeFlag]
  · simp [isCompleteSel, completeFlag]
  · simp [isCompleteSel, completeFlag]
  · rename_i h1 h2 h3 h4
    cases a <;> simp_all [isCompleteSel, completeFlag]

/-- An unrecognized tool name reaches the `else` branch of the dispatch:
the recorded result is the captured `ValueError` text and `break_loop`
stays unset. -/
theorem dispatchTool_unknown (fetch : String → FetchResponse) (files : Store)
    (n : String) (a : ToolArgs) (hn : knownToolName n = false) :
    dispatchTool fetch files n a =
      (files, "Error executing " ++ n ++ ": Unknown function: " ++ n, false) := by
  unfold dispatchTool
  split
  · simp [knownToolName] at hn
  · simp [knownToolName] at hn
  · simp [knownToolName] at hn
  · simp [knownToolName] at hn
  · simp [hn]

theorem processCalls_not_aborted (fetch : String → FetchResponse) :
    ∀ (tcs : List ToolCall) (files : Store) (bl : Bool),
      (∀ tc ∈ tcs, tc.args.isSome = true) →
      (processCalls fetch files bl tcs).aborted = false := by
  intro tcs
  induction tcs with
  | nil => intro files bl _; rfl
  | cons tc rest ih =>
      intro files bl h
      obtain ⟨a, ha⟩ := Option.isSome_iff_exists.mp (h tc (by simp))
      simp only [processCalls, execToolCall, ha, Option.map_some']
      exact ih _ _ fun tc' h' => h tc' (by simp [h'])

theorem processCalls_length (fetch : String → FetchResponse) :
    ∀ (tcs : List ToolCall) (files : Store) (bl : Bool),
      (∀ tc ∈ tcs, tc.args.isSome = true) →
      (processCalls fetch files bl tcs).results.length = tcs.length := by
  intro tcs
  induction tcs with
  | nil => intro files bl _; rfl
  | cons tc rest ih =>
      intro files bl h
      obtain ⟨a, ha⟩ := Option.isSome_iff_exists.mp (h tc (by simp))
      simp only [processCalls, execToolCall, ha, Option.map_some',
        List.length_cons]
      rw [ih _ _ fun tc' h' => h tc' (by simp [h'])]

theorem processCalls_pointwise (fetch : String → FetchResponse) :
    ∀ (tcs : List ToolCall) (files : Store) (bl : Bool),
      (∀ tc ∈ tcs, tc.args.isSome = true) →
      ∀ (i : Nat) (tc : ToolCall), tcs[i]? = some tc →
        ∃ s, (processCalls fetch files bl tcs).results[i]? =
          some (Message.tool tc.id tc.name s) := by
  intro tcs
  induction tcs with
  | nil => intro files bl _ i tc h; simp at h
  | cons tc0 rest ih =>
      intro files bl h i tc hi
      obtain ⟨a, ha⟩ := Option.isSome_iff_exists.mp (h tc0 (by simp))
      simp only [processCalls, execToolCall, ha, Option.map_some']
      cases i with
      | zero =>
          simp only [List.getElem?_cons_zero, Option.some_inj] at hi
          subst hi
          exact ⟨(dispatchTool fetch files tc0.name a).2.1, by simp⟩
      | succ j =>
          simp only [List.getElem?_cons_succ] at hi
          obtain ⟨s, hs⟩ := ih _ _ (fun tc' h' => h tc' (by simp [h'])) j tc hi
          exact ⟨s, by simpa using hs⟩

theorem processCalls_strictPaired (fetch : String → FetchResponse) :
    ∀ (tcs : List ToolCall) (files : Store) (bl : Bool),
      (processCalls fetch files bl tcs).aborted = false →
      toolCallsPairedStrict tcs (processCalls fetch files bl tcs).results =
        true := by
  intro tcs
  induction tcs with
  | nil => intro files bl _; rfl
  | cons tc rest ih =>
      intro files bl hab
      cases ha : tc.args with
      | none => simp [processCalls, execToolCall, ha] at hab
      | some a =>
          simp only [processCalls, execToolCall, ha, Option.map_some'] at hab ⊢
          simp only [toolCallsPairedStrict, Bool.and_eq_true]
          exact ⟨by simp, ih _ _ hab⟩

theorem processCalls_paired (fetch : String → FetchResponse) :
    ∀ (tcs : List ToolCall) (files : Store) (bl : Bool),
      toolCallsPaired tcs (processCalls fetch files bl tcs).results = true := by
  intro tcs
  induction tcs with
  | nil => intro files bl; rfl
  | cons tc rest ih =>
      intro files bl
      cases ha : tc.args with
      | none => simp [processCalls, execToolCall, ha, toolCallsPaired]
      | some a =>
          simp only [processCalls, execToolCall, ha, Option.map_some']
          simp only [toolCallsPaired, Bool.and_eq_true]
          exact ⟨by simp, ih _ _⟩

theorem processCalls_break_mono (fetch : String → FetchResponse) :
    ∀ (tcs : List ToolCall) (files : Store),
      (processCalls fetch files true tcs).break_loop = true := by
  intro tcs
  induction tcs with
  | nil => intro files; rfl
  | cons tc rest ih =>
      intro files
      cases ha : tc.args with
      | none => simp [processCalls, execToolCall, ha]
      | some a =>
          simp only [processCalls, execToolCall, ha, Option.map_some',
            Bool.true_or]
          exact ih _

theorem processCalls_break_of_complete (fetch : String → FetchResponse) :
    ∀ (tcs : List ToolCall) (files : Store) (bl : Bool),
      (∀ tc ∈ tcs, tc.args.isSome = true) →
      (∃ tc ∈ tcs, ∃ a, tc.args = some a ∧ isCompleteSel tc.name a = true) →
      (processCalls fetch files bl tcs).break_loop = true := by
  intro tcs
  induction tcs with
  | nil => intro files bl _ hc; simp at hc
  | cons tc0 rest ih =>
      intro files bl h hc
      obtain ⟨a0, ha0⟩ := Option.isSome_iff_exists.mp (h tc0 (by simp))
      simp only [processCalls, execToolCall, ha0, Option.map_some']
      obtain ⟨tc, htc, a, ha, hsel⟩ := hc
      rcases List.mem_cons.mp htc with rfl | hmem
      · rw [ha0] at ha
        injection ha with ha
        subst ha
        rw [dispatchTool_flag, hsel, Bool.or_true]
        exact processCalls_break_mono fetch rest _
      · exact ih _ _ (fun tc' h' => h tc' (by simp [h'])) ⟨tc, hmem, a, ha, hsel⟩

theorem processCalls_break_of_no_complete (fetch : String → FetchResponse) :
    ∀ (tcs : List ToolCall) (files : Store) (bl : Bool),
      (∀ tc ∈ tcs, tc.name ≠ "CompleteTaskArgs") →
      (processCalls fetch files bl tcs).break_loop = bl := by
  intro tcs
  induction tcs with
  | nil => intro files bl _; rfl
  | cons tc rest ih =>
      intro files bl h
      cases ha : tc.args with
      | none => simp [processCalls, execToolCall, ha]
      | some a =>
          simp only [processCalls, execToolCall, ha, Option.map_some']
          rw [dispatchTool_flag]
          have hne : tc.name ≠ "CompleteTaskArgs" := h tc (by simp)
          have : isCompleteSel tc.name a = false := by
            simp [isCompleteSel, hne]
          rw [this, Bool.or_false]
          exact ih _ _ fun tc' h' => h tc' (by simp [h'])

theorem processCalls_last (fetch : String → FetchResponse) :
    ∀ (tcs : List ToolCall) (files : Store) (bl : Bool),
      (∀ tc ∈ tcs, tc.args.isSome = true) → tcs ≠ [] →
      ∃ tc s, tcs.getLast? = some tc ∧
        (processCalls fetch files bl tcs).results.getLast? =
          some (Message.tool tc.id tc.name s) := by
  intro tcs
  induction tcs with
  | nil => intro files bl _ hne; exact absurd rfl hne
  | cons tc0 rest ih =>
      intro files bl h _
      obtain ⟨a, ha⟩ := Option.isSome_iff_exists.mp (h tc0 (by simp))
      simp only [processCalls, execToolCall, ha, Option.map_some']
      cases rest with
      | nil =>
          exact ⟨tc0, (dispatchTool fetch files tc0.name a).2.1, rfl, rfl⟩
      | cons r rs =>
          have hrest : ∀ tc ∈ r :: rs, tc.args.isSome = true :=
            fun tc' h' => h tc' (by simp [h'])
          obtain ⟨tc, s, hlast, hres⟩ :=
            ih ((dispatchTool fetch files tc0.name a).1)
              (bl || (dispatchTool fetch files tc0.name a).2.2) hrest (by simp)
          have hne : (processCalls fetch
              ((dispatchTool fetch files tc0.name a).1)
              (bl || (dispatchTool fetch files tc0.name a).2.2)
              (r :: rs)).results ≠ [] := by
            have hl := processCalls_length fetch (r :: rs)
              ((dispatchTool fetch files tc0.name a).1)
              (bl || (dispatchTool fetch files tc0.name a).2.2) hrest
            intro hnil
            rw [hnil] at hl
            simp at hl
          refine ⟨tc, s, ?_, ?_⟩
          · rw [List.getLast?_cons_cons]
            exact hlast
          · show (Message.tool tc0.id tc0.name _ :: _).getLast? = _
            rw [show (Message.tool tc0.id tc0.name
                ((dispatchTool fetch files tc0.name a).2.1) ::
                (processCalls fetch ((dispatchTool fetch files tc0.name a).1)
                  (bl || (dispatchTool fetch files tc0.name a).2.2)
                  (r :: rs)).results) =
              [Message.tool tc0.id tc0.name
                ((dispatchTool fetch files tc0.name a).2.1)] ++
                (processCalls fetch ((dispatchTool fetch files tc0.name a).1)
                  (bl || (dispatchTool fetch files tc0.name a).2.2)
                  (r :: rs)).results from rfl]
            rw [List.getLast?_append_of_ne_nil _ hne]
            exact hres

theorem loopAgent_paired (fetch : String → FetchResponse) :
    ∀ (fuel : Nat) (script : List ProviderResponse) (msgs : List Message)
      (files : Store) (calls : Nat),
      toolCallsPairedStrict [] msgs = true →
      toolCallsPaired []
        (loopAgent fetch fuel script msgs files calls).messages = true := by
  intro fuel
  induction fuel with
  | zero =>
      intro script msgs files calls h
      exact toolCallsPaired_of_strict msgs [] h
  | succ n ih =>
      intro script msgs files calls h
      cases script with
      | nil => exact toolCallsPaired_of_strict msgs [] h
      | cons resp rest =>
          obtain ⟨c, tcs⟩ := resp
          cases tcs with
          | nil =>
              simp only [loopAgent]
              exact toolCallsPaired_append msgs [] _ h rfl
          | cons t ts =>
              simp only [loopAgent]
              have hstrict1 : toolCallsPairedStrict []
                  (msgs ++ [Message.assistantText (c.getD "")]) = true :=
                toolCallsPairedStrict_append msgs [] _ h rfl
              cases hab : (processCalls fetch files false (t :: ts)).aborted with
              | true =>
                  simp only [hab, if_true]
                  rw [List.append_assoc (msgs ++ [Message.assistantText (c.getD "")])]
                  refine toolCallsPaired_append _ [] _ hstrict1 ?_
                  simp only [List.cons_append, List.nil_append, toolCallsPaired]
                  exact processCalls_paired fetch (t :: ts) files false
              | false =>
                  simp only [hab, Bool.false_eq_true, if_false]
                  have hstrict3 : toolCallsPairedStrict []
                      (msgs ++ [Message.assistantText (c.getD "")] ++
                        [Message.assistantCalls c (t :: ts)] ++
                        (processCalls fetch files false (t :: ts)).results) =
                      true := by
                    rw [List.append_assoc (msgs ++ [Message.assistantText (c.getD "")])]
                    refine toolCallsPairedStrict_append _ [] _ hstrict1 ?_
                    simp only [List.cons_append, List.nil_append,
                      toolCallsPairedStrict]
                    exact processCalls_strictPaired fetch (t :: ts) files false hab
                  cases hbl : (processCalls fetch files false (t :: ts)).break_loop with
                  | true =>
                      simp only [hbl, if_true]
                      exact toolCallsPaired_of_strict _ [] hstrict3
                  | false =>
                      simp only [hbl, Bool.false_eq_true, if_false]
                      exact ih rest _ _ _ hstrict3

theorem loopAgent_cause_of_no_complete (fetch : String → FetchResponse) :
    ∀ (fuel : Nat) (script : List ProviderResponse) (msgs : List Message)
      (files : Store) (calls : Nat),
      (∀ resp ∈ script, ∀ tc ∈ resp.tool_calls,
        tc.name ≠ "CompleteTaskArgs") →
      (loopAgent fetch fuel script msgs files calls).cause ≠ .done := by
  intro fuel
  induction fuel with
  | zero => intro script msgs files calls _; simp [loopAgent]
  | succ n ih =>
      intro script msgs files calls h
      cases script with
      | nil => simp [loopAgent]
      | cons resp rest =>
          obtain ⟨c, tcs⟩ := resp
          cases tcs with
          | nil => simp [loopAgent]
          | cons t ts =>
              simp only [loopAgent]
              cases hab : (processCalls fetch files false (t :: ts)).aborted with
              | true => simp [hab]
              | false =>
                  have hbl : (processCalls fetch files false (t :: ts)).break_loop =
                      false :=
                    processCalls_break_of_no_complete fetch (t :: ts) files false
                      (h ⟨c, t :: ts⟩ (by simp))
                  simp only [hab, hbl, Bool.false_eq_true, if_false]
                  exact ih rest _ _ _ fun resp' h' => h resp' (by simp [h'])

/-! Concrete fixtures used by witnesses and counterexamples. -/

/-- A fetch provider whose every call raises (network failure). -/
def fetchRaises : String → FetchResponse := fun _ => .raises "network error"

/-- A provider response that selects only the `read_local_file` tool. -/
def respRead : ProviderResponse :=
  ⟨some "hi", [⟨"id1", "ReadLocalFileArgs", some (.readArgs "r" "f")⟩]⟩

/-- A provider response that selects only the `complete_task` tool. -/
def respComplete : ProviderResponse :=
  ⟨some "ok", [⟨"a", "CompleteTaskArgs", some (.completeArgs "d")⟩]⟩

/-- A string of 2001 identical code points, longer than the 2000-point
scrape truncation limit. -/
def longContent : String := String.mk (List.replicate 2001 'a')

/-- Claim C6: for every successful scrape whose fetched content is longer
than 2000 units, the value stored under the output key is exactly the
first 2000 units of the content, has length exactly 2000, and is also the
returned tool result. -/
theorem scrape_truncation (fetch : String → FetchResponse) (files : Store)
    (r u o content : String) (hf : fetch u = .withMarkdown content)
    (hl : 2000 < content.length) :
    getStore (scrape_url fetch files r u o).1 o = some (pyTake content 2000) ∧
    (pyTake content 2000).length = 2000 ∧
    (scrape_url fetch files r u o).2 = pyTake content 2000 := by
  refine ⟨?_, ?_, ?_⟩
  · simp only [scrape_url, hf]
    exact getStore_setStore_self files o (pyTake content 2000)
  · show (String.mk (content.data.take 2000)).length = 2000
    simp only [String.length]
    rw [List.length_take]
    exact Nat.min_eq_left (Nat.le_of_lt hl)
  · simp only [scrape_url, hf]

theorem scrape_truncation_witness :
    getStore (scrape_url (fun _ => .withMarkdown longContent) [] "r" "u" "o").1
        "o" = some (pyTake longContent 2000) ∧
    (pyTake longContent 2000).length = 2000 ∧
    (scrape_url (fun _ => .withMarkdown longContent) [] "r" "u" "o").2 =
      pyTake longContent 2000 :=
  scrape_truncation (fun _ => .withMarkdown longContent) [] "r" "u" "o"
    longContent rfl
    (by
      rw [show longContent.length = (List.replicate 2001 'a').length from rfl,
        List.length_replicate]
      omega)

/-- Claim C7: writing content under key `k` and then reading `k` returns
exactly that content; the read leaves the store unchanged, so repeating
the read any number of times keeps returning the same content. -/
theorem write_then_read_roundtrip (files : Store) (r1 r2 k c : String) :
    (read_local_file (update_local_file files r1 k c).1 r2 k).2 = c ∧
    (read_local_file (update_local_file files r1 k c).1 r2 k).1 =
      (update_local_file files r1 k c).1 ∧
    ∀ n : Nat,
      (read_local_file
        ((fun s => (read_local_file s r2 k).1)^[n]
          (update_local_file files r1 k c).1) r2 k).2 = c := by
  have hread : (read_local_file (setStore files k c) r2 k).2 = c := by
    simp [read_local_file, getStore_setStore_self]
  refine ⟨hread, rfl, ?_⟩
  intro n
  have hid : (fun s => (read_local_file s r2 k).1) = id := rfl
  rw [hid, Function.iterate_id]
  exact hread

/-- Claim C8: reading a key absent from the store returns the empty
string (and is an ordinary result, not an error). -/
theorem read_absent_key_empty (files : Store) (r k : String)
    (h : getStore files k = none) :
    read_local_file files r k = (files, "") := by
  simp [read_local_file, h]

theorem read_absent_key_empty_witness :
    getStore [] "missing" = none ∧
    read_local_file [] "why" "missing" = ([], "") :=
  ⟨rfl, read_absent_key_empty [] "why" "missing" rfl⟩

/-- Claim C10: whenever the fetch does not yield content under the
`"markdown"` key (missing key or exception), `scrape_url` returns the
empty string and leaves the store completely unchanged. -/
theorem scrape_failure_leaves_store_unchanged
    (fetch : String → FetchResponse) (files : Store) (r u o : String)
    (h : ∀ c, fetch u ≠ .withMarkdown c) :
    scrape_url fetch files r u o = (files, "") := by
  cases hf : fetch u with
  | withMarkdown c => exact absurd hf (h c)
  | withoutMarkdown e => simp [scrape_url, hf]
  | raises m => simp [scrape_url, hf]

theorem scrape_failure_leaves_store_unchanged_witness :
    scrape_url (fun _ => .withoutMarkdown "Unknown error")
        [("k", "v")] "r" "https://x" "o" = ([("k", "v")], "") :=
  scrape_failure_leaves_store_unchanged
    (fun _ => .withoutMarkdown "Unknown error") [("k", "v")] "r" "https://x" "o"
    (by intro c hc; exact FetchResponse.noConfusion hc)

/-- Claim C9: with `compute_limit ≤ 0` the loop body never runs: no
provider call is made and the caller receives a transcript holding only
the seeded user message, together with an empty store. -/
theorem nonpositive_limit_no_iterations (fetch : String → FetchResponse)
    (script : List ProviderResponse) (url prompt o : String)
    (compute_limit : Int) (h : compute_limit ≤ 0) :
    run_agent fetch script url prompt o compute_limit =
      ⟨[Message.user (formatPrompt url prompt o)], []⟩ ∧
    (run_agent_core fetch script url prompt o compute_limit).providerCalls =
      0 := by
  have h0 : compute_limit.toNat = 0 := Int.toNat_of_nonpos h
  constructor
  · simp [run_agent, run_agent_core, h0, loopAgent]
  · simp [run_agent_core, h0, loopAgent]

theorem nonpositive_limit_no_iterations_witness :
    run_agent fetchRaises [respRead] "https://example.com" "summarize page"
        "scraped_content.md" 0 =
      ⟨[Message.user
          (formatPrompt "https://example.com" "summarize page"
            "scraped_content.md")], []⟩ ∧
    (run_agent_core fetchRaises [respRead] "https://example.com"
        "summarize page" "scraped_content.md" 0).providerCalls = 0 :=
  nonpositive_limit_no_iterations fetchRaises [respRead] "https://example.com"
    "summarize page" "scraped_content.md" 0 (by decide)

/-- Claim C1 (counterexample): a run with `compute_limit = 1` whose single
response selects only `read_local_file` exhausts the budget without a
`complete` invocation, yet the caller receives the ordinary
`{"messages", "files_in_memory"}` result — not an error describing the
cause. -/
theorem budget_exhaustion_returns_ordinary_result_cex :
    (run_agent_core fetchRaises [respRead] "https://example.com"
        "summarize page" "scraped_content.md" 1).cause = ExitCause.budget ∧
    run_agent fetchRaises [respRead] "https://example.com" "summarize page"
        "scraped_content.md" 1 =
      ⟨[Message.user
          (formatPrompt "https://example.com" "summarize page"
            "scraped_content.md"),
        Message.assistantText "hi",
        Message.assistantCalls (some "hi")
          [⟨"id1", "ReadLocalFileArgs", some (.readArgs "r" "f")⟩],
        Message.tool "id1" "ReadLocalFileArgs" ""], []⟩ :=
  ⟨rfl, rfl⟩

/-- Claim C1 (amended): a run whose provider script never names the
completion tool cannot end in the `done` state — the loop stops by budget
exhaustion or a provider failure — but the caller still receives the
ordinary transcript-and-store record built from the loop's final state;
no error value is surfaced. -/
theorem failed_run_still_returns_transcript (fetch : String → FetchResponse)
    (script : List ProviderResponse) (url prompt o : String)
    (compute_limit : Int)
    (h : ∀ resp ∈ script, ∀ tc ∈ resp.tool_calls,
      tc.name ≠ "CompleteTaskArgs") :
    (run_agent_core fetch script url prompt o compute_limit).cause ≠
      ExitCause.done ∧
    run_agent fetch script url prompt o compute_limit =
      ⟨(run_agent_core fetch script url prompt o compute_limit).messages,
        (run_agent_core fetch script url prompt o compute_limit).files⟩ :=
  ⟨loopAgent_cause_of_no_complete fetch compute_limit.toNat script _ [] 0 h,
    rfl⟩

theorem failed_run_still_returns_transcript_witness :
    (run_agent_core fetchRaises [respRead] "https://example.com"
        "summarize page" "scraped_content.md" 1).cause ≠ ExitCause.done ∧
    run_agent fetchRaises [respRead] "https://example.com" "summarize page"
        "scraped_content.md" 1 =
      ⟨(run_agent_core fetchRaises [respRead] "https://example.com"
          "summarize page" "scraped_content.md" 1).messages,
        (run_agent_core fetchRaises [respRead] "https://example.com"
          "summarize page" "scraped_content.md" 1).files⟩ :=
  failed_run_still_returns_transcript fetchRaises [respRead]
    "https://example.com" "summarize page" "scraped_content.md" 1
    (by decide)

/-- Claim C2 (counterexample): in the scenario with `compute_limit = 1`
whose single provider response selects `complete` directly, the returned
transcript has 4 messages, not 3: the loop appends the assistant message
once without and once with the tool invocations (`main.py` lines 267 and
271-285). -/
theorem single_complete_transcript_length_cex :
    (run_agent fetchRaises [respComplete] "https://example.com"
        "summarize page" "scraped_content.md" 1).messages.length = 4 ∧
    (run_agent fetchRaises [respComplete] "https://example.com"
        "summarize page" "scraped_content.md" 1).messages.length ≠ 3 :=
  ⟨rfl, by decide⟩

/-- Claim C2 (amended): with `compute_limit = 1` and a single provider
response that selects `complete` directly, the run ends `done` after
exactly 1 provider call and the transcript has exactly 4 messages, in
order: the user message, a plain assistant message, the assistant message
carrying the tool invocation, and the tool-result message. -/
theorem single_complete_turn_transcript (fetch : String → FetchResponse)
    (c : Option String) (id reason url prompt o : String) :
    run_agent_core fetch
        [⟨c, [⟨id, "CompleteTaskArgs", some (.completeArgs reason)⟩]⟩]
        url prompt o 1 =
      ⟨[Message.user (formatPrompt url prompt o),
        Message.assistantText (c.getD ""),
        Message.assistantCalls c
          [⟨id, "CompleteTaskArgs", some (.completeArgs reason)⟩],
        Message.tool id "CompleteTaskArgs" "Task completed successfully"],
        [], .done, 1⟩ ∧
    run_agent fetch
        [⟨c, [⟨id, "CompleteTaskArgs", some (.completeArgs reason)⟩]⟩]
        url prompt o 1 =
      ⟨[Message.user (formatPrompt url prompt o),
        Message.assistantText (c.getD ""),
        Message.assistantCalls c
          [⟨id, "CompleteTaskArgs", some (.completeArgs reason)⟩],
        Message.tool id "CompleteTaskArgs" "Task completed successfully"],
        []⟩ :=
  ⟨rfl, rfl⟩

/-- Claim C4: in every transcript the agent loop can produce, every
tool-invocation batch message is immediately followed by one tool-result
message per invocation, carrying the invocations' correlation ids in
their order, before any further provider call; pairing can stop short
only at the very end of the transcript, where no further provider call is
ever issued. -/
theorem transcript_tool_results_paired (fetch : String → FetchResponse)
    (script : List ProviderResponse) (url prompt o : String)
    (compute_limit : Int) :
    toolCallsPaired []
      (run_agent fetch script url prompt o compute_limit).messages = true := by
  show toolCallsPaired []
    (loopAgent fetch compute_limit.toNat script
      [Message.user (formatPrompt url prompt o)] [] 0).messages = true
  exact loopAgent_paired fetch compute_limit.toNat script _ [] 0 rfl

/-- Claim C5: a tool invocation with an unrecognized name gets the
captured `ValueError` text recorded as its tool-result; the remaining
invocations of the batch are processed exactly as they would have been
without it (same store, results, flags), and when the batch neither
aborts nor completes, the loop proceeds to the next iteration. -/
theorem unknown_tool_recorded_not_fatal (fetch : String → FetchResponse)
    (files : Store) (bl : Bool) (tc : ToolCall) (a : ToolArgs)
    (rest : List ToolCall) (hn : knownToolName tc.name = false)
    (ha : tc.args = some a) :
    processCalls fetch files bl (tc :: rest) =
      ⟨(processCalls fetch files bl rest).files,
        Message.tool tc.id tc.name
          ("Error executing " ++ tc.name ++ ": Unknown function: " ++
            tc.name) :: (processCalls fetch files bl rest).results,
        (processCalls fetch files bl rest).break_loop,
        (processCalls fetch files bl rest).aborted⟩ ∧
    (∀ (c : Option String) (script : List ProviderResponse)
        (msgs : List Message) (n k : Nat),
      (processCalls fetch files false (tc :: rest)).aborted = false →
      (processCalls fetch files false (tc :: rest)).break_loop = false →
      loopAgent fetch (n + 1) (⟨c, tc :: rest⟩ :: script) msgs files k =
        loopAgent fetch n script
          (msgs ++ [Message.assistantText (c.getD ""),
            Message.assistantCalls c (tc :: rest)] ++
            (processCalls fetch files false (tc :: rest)).results)
          (processCalls fetch files false (tc :: rest)).files (k + 1)) := by
  constructor
  · simp only [processCalls, execToolCall, ha, Option.map_some',
      dispatchTool_unknown fetch files tc.name a hn, Bool.or_false]
  · intro c script msgs n k hab hbl
    simp only [loopAgent, hab, hbl, Bool.false_eq_true, if_false]
    simp [List.append_assoc]

theorem unknown_tool_recorded_not_fatal_witness :
    processCalls fetchRaises [] false [⟨"x1", "FooArgs", some .otherShape⟩] =
      ⟨(processCalls fetchRaises [] false []).files,
        Message.tool "x1" "FooArgs"
          ("Error executing " ++ "FooArgs" ++ ": Unknown function: " ++
            "FooArgs") :: (processCalls fetchRaises [] false []).results,
        (processCalls fetchRaises [] false []).break_loop,
        (processCalls fetchRaises [] false []).aborted⟩ ∧
    loopAgent fetchRaises (0 + 1)
        [⟨some "c", [⟨"x1", "FooArgs", some .otherShape⟩]⟩] [] [] 0 =
      loopAgent fetchRaises 0 []
        ([] ++ [Message.assistantText ((some "c").getD ""),
          Message.assistantCalls (some "c")
            [⟨"x1", "FooArgs", some .otherShape⟩]] ++
          (processCalls fetchRaises [] false
            [⟨"x1", "FooArgs", some .otherShape⟩]).results)
        (processCalls fetchRaises [] false
          [⟨"x1", "FooArgs", some .otherShape⟩]).files (0 + 1) :=
  have h := unknown_tool_recorded_not_fatal fetchRaises [] false
    ⟨"x1", "FooArgs", some .otherShape⟩ .otherShape [] (by decide) rfl
  ⟨h.1, h.2 (some "c") [] [] 0 0 (by decide) (by decide)⟩

/-- A provider response that selects `complete_task` first and then
`read_local_file` in the same batch. -/
def respCompleteRead : ProviderResponse :=
  ⟨some "", [⟨"a", "CompleteTaskArgs", some (.completeArgs "d")⟩,
    ⟨"b", "ReadLocalFileArgs", some (.readArgs "r" "f")⟩]⟩

/-- Claim C3 (counterexample): when the batch is `complete` followed by
`read`, the run ends `done` but the transcript's final tool-result
message carries the read invocation's id `"b"`, not the complete
invocation's id `"a"`. -/
theorem complete_not_last_final_result_cex :
    (run_agent_core fetchRaises [respCompleteRead] "u" "p" "o" 1).cause =
      ExitCause.done ∧
    (run_agent_core fetchRaises [respCompleteRead] "u" "p" "o"
        1).messages.getLast? =
      some (Message.tool "b" "ReadLocalFileArgs" "") ∧
    (run_agent_core fetchRaises [respCompleteRead] "u" "p" "o"
        1).messages.getLast? ≠
      some (Message.tool "a" "CompleteTaskArgs" "Task completed successfully") :=
  ⟨rfl, rfl, by decide⟩

/-- Claim C3 (amended): whenever the loop is about to issue a provider
call with budget remaining and the response's batch contains a
well-formed `complete` invocation (and every invocation in the batch has
parseable arguments), the run ends `done` after this one further provider
call; every invocation of the batch — including those after `complete` —
is executed and gets exactly one result recorded in order, and the
transcript's final tool-result message corresponds to the batch's last
invocation (the `complete` invocation only when it is last). -/
theorem complete_in_batch_terminates_done (fetch : String → FetchResponse)
    (fuel : Nat) (resp : ProviderResponse) (rest : List ProviderResponse)
    (msgs : List Message) (files : Store) (calls : Nat)
    (hparse : ∀ tc ∈ resp.tool_calls, tc.args.isSome = true)
    (hcomplete : ∃ tc ∈ resp.tool_calls, ∃ a, tc.args = some a ∧
      isCompleteSel tc.name a = true) :
    (loopAgent fetch (fuel + 1) (resp :: rest) msgs files calls).cause =
      ExitCause.done ∧
    (loopAgent fetch (fuel + 1) (resp :: rest) msgs files calls).providerCalls =
      calls + 1 ∧
    (loopAgent fetch (fuel + 1) (resp :: rest) msgs files calls).messages =
      msgs ++ Message.assistantText (resp.content.getD "") ::
        Message.assistantCalls resp.content resp.tool_calls ::
          (processCalls fetch files false resp.tool_calls).results ∧
    (processCalls fetch files false resp.tool_calls).results.length =
      resp.tool_calls.length ∧
    (∀ (i : Nat) (tc : ToolCall), resp.tool_calls[i]? = some tc →
      ∃ s, (processCalls fetch files false resp.tool_calls).results[i]? =
        some (Message.tool tc.id tc.name s)) ∧
    (∃ tc s, resp.tool_calls.getLast? = some tc ∧
      (loopAgent fetch (fuel + 1) (resp :: rest) msgs files
          calls).messages.getLast? =
        some (Message.tool tc.id tc.name s)) := by
  obtain ⟨c, tcs⟩ := resp
  cases tcs with
  | nil => simp at hcomplete
  | cons t ts =>
      have hab := processCalls_not_aborted fetch (t :: ts) files false hparse
      have hbl := processCalls_break_of_complete fetch (t :: ts) files false
        hparse hcomplete
      have hlen := processCalls_length fetch (t :: ts) files false hparse
      have hne : (processCalls fetch files false (t :: ts)).results ≠ [] := by
        intro hnil
        rw [hnil] at hlen
        simp at hlen
      have hloop : loopAgent fetch (fuel + 1) (⟨c, t :: ts⟩ :: rest) msgs files
          calls =
          ⟨msgs ++ [Message.assistantText (c.getD "")] ++
              [Message.assistantCalls c (t :: ts)] ++
              (processCalls fetch files false (t :: ts)).results,
            (processCalls fetch files false (t :: ts)).files, .done,
            calls + 1⟩ := by
        simp only [loopAgent, hab, hbl, Bool.false_eq_true, if_false, if_true]
      rw [hloop]
      refine ⟨rfl, rfl, by simp, hlen,
        processCalls_pointwise fetch (t :: ts) files false hparse, ?_⟩
      obtain ⟨tc, s, h1, h2⟩ :=
        processCalls_last fetch (t :: ts) files false hparse (by simp)
      refine ⟨tc, s, h1, ?_⟩
      show ((msgs ++ [Message.assistantText (c.getD "")] ++
        [Message.assistantCalls c (t :: ts)]) ++
        (processCalls fetch files false (t :: ts)).results).getLast? = _
      rw [List.getLast?_append_of_ne_nil _ hne]
      exact h2

theorem complete_in_batch_terminates_done_witness :
    (loopAgent fetchRaises 1 [respCompleteRead] [] [] 0).cause =
      ExitCause.done ∧
    (loopAgent fetchRaises 1 [respCompleteRead] [] [] 0).providerCalls =
      0 + 1 ∧
    (processCalls fetchRaises [] false
        respCompleteRead.tool_calls).results.length = 2 ∧
    (∃ s, (processCalls fetchRaises [] false
        respCompleteRead.tool_calls).results[1]? =
      some (Message.tool "b" "ReadLocalFileArgs" s)) ∧
    (∃ tc s, respCompleteRead.tool_calls.getLast? = some tc ∧
      (loopAgent fetchRaises 1 [respCompleteRead] [] []
          0).messages.getLast? = some (Message.tool tc.id tc.name s)) :=
  have h := complete_in_batch_terminates_done fetchRaises 0 respCompleteRead
    [] [] [] 0 (by decide)
    ⟨⟨"a", "CompleteTaskArgs", some (.completeArgs "d")⟩, by decide,
      ToolArgs.completeArgs "d", rfl, by decide⟩
  ⟨h.1, h.2.1, h.2.2.2.1.trans (by decide),
    h.2.2.2.2.1 1 ⟨"b", "ReadLocalFileArgs", some (.readArgs "r" "f")⟩
      (by decide),
    h.2.2.2.2.2⟩

end FirecrawlAgent
